import Mathlib

/-!
Verification of the ChemVista scene-tree core (`src/chemvista/tree_structure.py`
and the typed domain nodes) against its natural-language specification.

The mutable Python object graph is embedded as an explicit heap: node
identity (Python `uuid`) is a natural number, and a `State` maps each
identity to the record of that node's mutable fields.  Each Python method
becomes a function from a state to a state together with its return value
and the Qt signals it emits.  Recursions over the object graph
(`_invalidate_path_cache`, the `path` parent-chain walk) take explicit fuel,
since on a corrupted graph the Python originals need not terminate.

The typed domain nodes `MoleculeObject` and `TrajectoryObject` are imported
by `scene_manager.py` and exercised by the test suite but their defining
module is not part of the source tree, so they are modelled from the
specification (marked `Modelled from the spec:` below).

The pure traversals `iter_tree` / `iter_visible` are embedded a second
time over an inductive rose tree, which is the natural functional image of
the recursive Python generators.
-/

namespace ChemVista

/-- Signals of `TreeSignals` (tree_structure.py): each emission is recorded
as one event. -/
inductive Event where
  | node_added (id : Nat)
  | node_removed (id : Nat)
  | node_changed (id : Nat)
  | visibility_changed (id : Nat) (visible : Bool)
  | render_changed (id : Nat)
  | tree_structure_changed
deriving DecidableEq, Repr

/-- Mutable fields of a `TreeNode` (tree_structure.py, `__init__`).
`childIds` is the key sequence of the insertion-ordered dict
`self._children`; `hasSignals` records whether `self._signals` is set. -/
structure Node where
  name : String := ""
  node_type : String := "generic"
  visible : Bool := true
  parentId : Option Nat := none
  childIds : List Nat := []
  pathCache : Option (List String) := none
  hasSignals : Bool := true
deriving DecidableEq, Repr

instance : Inhabited Node := ⟨{}⟩

/-- The heap: node identity (uuid) to node record. -/
abbrev State := Nat → Node

/-- Write one node record back into the heap. -/
def setNode (s : State) (i : Nat) (nd : Node) : State :=
  fun j => if j = i then nd else s j

/-- `TreeNode._can_add_child` (tree_structure.py line 160): the generic
hook accepts everything. -/
def can_add_child (_s : State) (_self _child : Nat) : Bool × String :=
  (true, "")

/-- `TreeNode._invalidate_path_cache` (tree_structure.py line 154): clear
this node's cache, then recurse into the children.  The Python recursion
is unbounded and, on a graph with a parent/child cycle, never returns:
the interpreter kills it with an uncaught `RecursionError`.  `fuel` is the
recursion budget; exhausting it yields `Except.error` carrying the heap as
mutated so far — the observable effect of the `RecursionError` — and once
an error arises it propagates past the remaining siblings unchanged, like
the exception does. -/
def invalidate_path_cache (fuel : Nat) (s : State) (n : Nat) : Except State State :=
  match fuel with
  | 0 => Except.error s
  | Nat.succ k =>
    let s1 := setNode s n { s n with pathCache := none }
    ((s1 n).childIds).foldl
      (fun acc c =>
        match acc with
        | Except.error e => Except.error e
        | Except.ok st => invalidate_path_cache k st c)
      (Except.ok s1)

/-- Return value of `TreeNode.add_child` / `reorder_child` / `move`:
the post-state, the `(success, message)` pair and the emitted signals. -/
structure OpResult where
  state : State
  ok : Bool
  msg : String
  events : List Event

/-- Outcome of an operation that can die with an uncaught
`RecursionError`: `Except.error` carries the heap at the moment the
exception escapes. -/
abbrev OpOutcome := Except State OpResult

/-- Whether the operation died with an uncaught `RecursionError` instead
of returning. -/
def raised : OpOutcome → Bool
  | Except.error _ => true
  | Except.ok _ => false

/-- The success flag of a normal return (`false` when the operation
raised instead of returning). -/
def returned_ok : OpOutcome → Bool
  | Except.error _ => false
  | Except.ok r => r.ok

/-- The heap after the operation, whether it returned or raised. -/
def final_state : OpOutcome → State
  | Except.error e => e
  | Except.ok r => r.state

/-- The signals emitted by the operation.  In the source every emission
happens after the invalidation has completed, so an operation that dies
inside the invalidation has emitted nothing. -/
def events_of : OpOutcome → List Event
  | Except.error _ => []
  | Except.ok r => r.events

/-- The heap carried by an invalidation outcome, whether it completed or
raised. -/
def out_state : Except State State → State
  | Except.error e => e
  | Except.ok s => s

/-- `TreeNode.add_child` (tree_structure.py lines 164-228).  The
`position = None` branch appends; the positioned branch checks
`0 <= position <= len(children)` against the pre-insertion list, appends,
invalidates the child's path caches and then rebuilds the dict with the
child removed and reinserted at `position`.  A `RecursionError` escaping
the invalidation propagates out of `add_child`. -/
def add_child (fuel : Nat) (s : State) (self child : Nat) (position : Option Nat)
    (send_signals : Bool) : OpOutcome :=
  let ca := can_add_child s self child
  if ca.1 = false then Except.ok ⟨s, false, ca.2, []⟩
  else
    match position with
    | none =>
      if child ∈ (s self).childIds then
        Except.ok ⟨s, false, "Child already exists in this parent", []⟩
      else
        let s1 := setNode s child { s child with parentId := some self }
        let s2 := setNode s1 self { s1 self with childIds := (s1 self).childIds ++ [child] }
        match invalidate_path_cache fuel s2 child with
        | Except.error e => Except.error e
        | Except.ok s3 =>
          let evs := if send_signals && (s3 self).hasSignals then
              [Event.node_added child, Event.tree_structure_changed] else []
          Except.ok ⟨s3, true, "Node added", evs⟩
    | some pos =>
      let children_list := (s self).childIds
      if pos ≤ children_list.length then
        if child ∈ (s self).childIds then
          Except.ok ⟨s, false, "Child already exists in this parent", []⟩
        else
          let s1 := setNode s child { s child with parentId := some self }
          let s2 := setNode s1 self { s1 self with childIds := (s1 self).childIds ++ [child] }
          match invalidate_path_cache fuel s2 child with
          | Except.error e => Except.error e
          | Except.ok s3 =>
            let rebuilt := List.insertIdx pos child (((s3 self).childIds).erase child)
            let s4 := setNode s3 self { s3 self with childIds := rebuilt }
            let evs := if send_signals && (s4 self).hasSignals then
                [Event.node_added child, Event.tree_structure_changed] else []
            Except.ok ⟨s4, true, "Node added at position " ++ toString pos, evs⟩
      else Except.ok ⟨s, false, "Invalid position " ++ toString pos, []⟩

/-- Return value of `TreeNode.remove_child`. -/
structure RemoveResult where
  state : State
  removed : Option Nat
  events : List Event

/-- `TreeNode.remove_child` (tree_structure.py lines 230-263).  Deletes the
entry from `self._children`, clears the child's parent pointer (with no
path-cache invalidation) and emits signals.  The UUID-string overload of
the source resolves to the same node identity. -/
def remove_child (s : State) (self child : Nat) (send_signals : Bool) : RemoveResult :=
  if child ∈ (s self).childIds then
    let s1 := setNode s self { s self with childIds := ((s self).childIds).erase child }
    let s2 := setNode s1 child { s1 child with parentId := none }
    let evs := if send_signals && (s2 self).hasSignals then
        [Event.node_removed child, Event.tree_structure_changed] else []
    ⟨s2, some child, evs⟩
  else ⟨s, none, []⟩

/-- `TreeNode.reorder_child` (tree_structure.py lines 555-598).  The source
computes `new_position = new_position or len(children_list) - 1`, so both
`None` and `0` (falsy in Python) are replaced by the last index. -/
def reorder_child (s : State) (self child : Nat) (new_position : Option Nat)
    (send_signals : Bool) : OpResult :=
  if child ∈ (s self).childIds then
    let children_list := (s self).childIds
    let np : Nat :=
      match new_position with
      | none => children_list.length - 1
      | some 0 => children_list.length - 1
      | some k => k
    if np < children_list.length then
      let current_position := children_list.indexOf child
      if current_position = np then
        ⟨s, true, "Child already at requested position", []⟩
      else
        let s1 := setNode s self
          { s self with childIds := List.insertIdx np child (children_list.erase child) }
        let evs := if send_signals && (s1 self).hasSignals then
            [Event.tree_structure_changed] else []
        ⟨s1, true, "Child moved from position " ++ toString current_position
            ++ " to " ++ toString np, evs⟩
    else ⟨s, false, "Invalid position " ++ toString np, []⟩
  else ⟨s, false, "Child does not belong to this parent", []⟩

/-- `TreeNode.move` (tree_structure.py lines 265-319).  Same-parent moves
degrade to `reorder_child`; otherwise the acceptance hook is consulted, the
node is detached from its current parent silently and re-attached with
`add_child`.  There is no cycle check, a failing `add_child` does not
restore the detached node, and a `RecursionError` escaping `add_child`
propagates out of `move`.  The UUID-string overloads resolve to node
identities. -/
def move (fuel : Nat) (s : State) (child_obj new_parent : Nat)
    (position : Option Nat) : OpOutcome :=
  let current_parent := (s child_obj).parentId
  if some new_parent = current_parent then
    Except.ok (reorder_child s new_parent child_obj position true)
  else
    let ca := can_add_child s new_parent child_obj
    if ca.1 = false then Except.ok ⟨s, false, "Cannot move to target: " ++ ca.2, []⟩
    else
      let s1 :=
        match current_parent with
        | some cp => (remove_child s cp child_obj false).state
        | none => s
      match add_child fuel s1 new_parent child_obj position true with
      | Except.error e => Except.error e
      | Except.ok r =>
        if r.ok then Except.ok ⟨r.state, true, "Node moved successfully", r.events⟩
        else Except.ok ⟨r.state, false, "Failed to move node: " ++ r.msg, r.events⟩

/-- The `visible` property setter (tree_structure.py lines 79-85): assigns
unconditionally and, when a signals object is present, always emits
`visibility_changed` followed by `render_changed`. -/
def set_visible (s : State) (self : Nat) (value : Bool) : State × List Event :=
  let s1 := setNode s self { s self with visible := value }
  let evs := if (s1 self).hasSignals then
      [Event.visibility_changed self value, Event.render_changed self] else []
  (s1, evs)

/-- `TreeNode.set_visibility` (tree_structure.py lines 321-339): when the
flag actually changes, the property setter runs (emitting once via the
node's signals) and then `set_visibility` emits the same pair again via
the receiver's signals; otherwise nothing happens and `False` is returned.
The UUID-string overload resolves to the node identity. -/
def set_visibility (s : State) (self node : Nat) (visible : Bool) :
    State × Bool × List Event :=
  if (s node).visible ≠ visible then
    let r := set_visible s node visible
    let evs2 := if (r.1 self).hasSignals then
        [Event.visibility_changed node visible, Event.render_changed node] else []
    (r.1, true, r.2 ++ evs2)
  else (s, false, [])

/-- The parent-chain walk of the `path` property (tree_structure.py lines
142-152): collect names while climbing `_parent` pointers.  `fuel` bounds
the loop, which the Python source runs unboundedly. -/
def computed_path (fuel : Nat) (s : State) (n : Nat) : List String :=
  match fuel with
  | 0 => []
  | Nat.succ k =>
    match (s n).parentId with
    | none => [(s n).name]
    | some p => computed_path k s p ++ [(s n).name]

/-- The value returned by the `path` property: the cached path if present,
otherwise the freshly computed one. -/
def path (fuel : Nat) (s : State) (n : Nat) : List String :=
  match (s n).pathCache with
  | some ps => ps
  | none => computed_path fuel s n

/-- Reading the `path` property also stores the computed path in
`_path_cache`. -/
def touch_path (fuel : Nat) (s : State) (n : Nat) : State :=
  match (s n).pathCache with
  | some _ => s
  | none => setNode s n { s n with pathCache := some (computed_path fuel s n) }

/-- The `name` property setter (tree_structure.py lines 102-106): assign
and invalidate the path caches of the node and its descendants (an
escaping `RecursionError` again surfaces as the error outcome). -/
def set_name (fuel : Nat) (s : State) (n : Nat) (value : String) : Except State State :=
  invalidate_path_cache fuel (setNode s n { s n with name := value }) n

namespace NodePath

/-- `NodePath.child` (tree_structure.py lines 26-28): append one name. -/
def child (parts : List String) (name : String) : List String :=
  parts ++ [name]

end NodePath

/-! Concrete trees used to evaluate the mutation operations. -/

/-- Tree `root` (0) with child `a` (1), which has child `b` (2). -/
def cycleState : State := fun i =>
  if i = 0 then { name := "root", childIds := [1] }
  else if i = 1 then { name := "a", parentId := some 0, childIds := [2] }
  else if i = 2 then { name := "b", parentId := some 1 }
  else {}

/-- Tree `root` (0) with children `p` (1) and `q` (2); `p` has child `n` (3). -/
def detachState : State := fun i =>
  if i = 0 then { name := "root", childIds := [1, 2] }
  else if i = 1 then { name := "p", parentId := some 0, childIds := [3] }
  else if i = 2 then { name := "q", parentId := some 0 }
  else if i = 3 then { name := "n", parentId := some 1 }
  else {}

/-- Two parents `p1` (1) and `p2` (2); `n` (3) is a child of `p1`. -/
def dualParentState : State := fun i =>
  if i = 1 then { name := "p1", childIds := [3] }
  else if i = 2 then { name := "p2" }
  else if i = 3 then { name := "n", parentId := some 1 }
  else {}

/-- Animation container `T` (0) with frame children `F0` (1), `F1` (2),
`F2` (3) in that order. -/
def trajState : State := fun i =>
  if i = 0 then { name := "T", node_type := "trajectory", childIds := [1, 2, 3] }
  else if i = 1 then { name := "F0", node_type := "molecule", parentId := some 0 }
  else if i = 2 then { name := "F1", node_type := "molecule", parentId := some 0 }
  else if i = 3 then { name := "F2", node_type := "molecule", parentId := some 0 }
  else {}

/-- Parent (0) with children `a` (1) and `b` (2). -/
def pairState : State := fun i =>
  if i = 0 then { name := "parent", childIds := [1, 2] }
  else if i = 1 then { name := "a", parentId := some 0 }
  else if i = 2 then { name := "b", parentId := some 0 }
  else {}

/-- Tree `root` (0) with child `n` (1), which has child `m` (2). -/
def staleState : State := fun i =>
  if i = 0 then { name := "root", childIds := [1] }
  else if i = 1 then { name := "n", parentId := some 0, childIds := [2] }
  else if i = 2 then { name := "m", parentId := some 1 }
  else {}

/-- The state after reading `m.path` (which caches it) and then calling
`root.remove_child(n)`. -/
def staleAfter : State := (remove_child (touch_path 10 staleState 2) 0 1 true).state

/-- A one-node-per-identity heap where every node has signals attached. -/
def sigState : State := fun _ => { name := "x" }

/-- Parent `p` (0) with children (1), (2), (3) in order. -/
def roundState : State := fun i =>
  if i = 0 then { name := "p", childIds := [1, 2, 3] }
  else if i = 1 then { name := "c0", parentId := some 0 }
  else if i = 2 then { name := "c1", parentId := some 0 }
  else if i = 3 then { name := "c2", parentId := some 0 }
  else {}

/-!
Typed domain nodes.  `scene_manager.py` imports `MoleculeObject` and
`TrajectoryObject` from `scene_objects`, and the test suite exercises
them, but the module defining them is not in the source tree; the
definitions below are therefore modelled from the specification.
-/

/-- A scalar-field child of a structure node: its identity, its display
name, and its field payload (an opaque identifier). -/
structure FieldNodeM where
  uuid : Nat
  fname : String
  payload : Nat
deriving DecidableEq, Repr

/-- Modelled from the spec: `MoleculeObject` (a structure node, absent
from the source tree).  It owns the ordered list of its scalar-field
children and the backing name-keyed field map `molecule.scalar_fields`,
whose iteration order is its insertion order; every child mutation
mirrors the map (spec sections 2, 3 and 4.1). -/
structure MoleculeObjectM where
  children : List FieldNodeM
  scalar_fields : List (String × Nat)
deriving DecidableEq, Repr

/-- Modelled from the spec: the structure node's acceptance policy rejects
a duplicate field name among the existing children (wrong-kind children
are excluded by the type of `FieldNodeM`). -/
def mol_can_add_child (m : MoleculeObjectM) (f : FieldNodeM) : Bool × String :=
  if m.children.any (fun c => c.fname == f.fname) then
    (false, "Scalar field with this name already exists")
  else (true, "")

/-- Modelled from the spec: adding a scalar-field child inserts the child
in the child list and the `(name, payload)` entry in the field map at the
same position (append when no position is given); an out-of-range
position fails with no mutation. -/
def mol_add_child (m : MoleculeObjectM) (f : FieldNodeM) (position : Option Nat) :
    MoleculeObjectM × Bool × String :=
  let ca := mol_can_add_child m f
  if ca.1 = false then (m, false, ca.2)
  else
    match position with
    | none =>
      ({ children := m.children ++ [f],
         scalar_fields := m.scalar_fields ++ [(f.fname, f.payload)] }, true, "Node added")
    | some pos =>
      if pos ≤ m.children.length then
        ({ children := List.insertIdx pos f m.children,
           scalar_fields := List.insertIdx pos (f.fname, f.payload) m.scalar_fields },
         true, "Node added")
      else (m, false, "Invalid position")

/-- Index of the first child with the given identity. -/
def uuid_index (l : List FieldNodeM) (u : Nat) : Option Nat :=
  match l with
  | [] => none
  | f :: t => if f.uuid = u then some 0 else (uuid_index t u).map (· + 1)

/-- Modelled from the spec: removing a scalar-field child (by identity)
deletes the child-list entry and the field-map entry at the same
position, returning the removed child. -/
def mol_remove_child (m : MoleculeObjectM) (u : Nat) :
    MoleculeObjectM × Option FieldNodeM :=
  match uuid_index m.children u with
  | none => (m, none)
  | some i =>
    ({ children := m.children.eraseIdx i,
       scalar_fields := m.scalar_fields.eraseIdx i }, m.children[i]?)

/-- Modelled from the spec: reordering a scalar-field child relocates the
child-list entry and the field-map entry to the same new position; an
out-of-range position fails with no mutation. -/
def mol_reorder_child (m : MoleculeObjectM) (u : Nat) (new_position : Nat) :
    MoleculeObjectM × Bool :=
  match uuid_index m.children u with
  | none => (m, false)
  | some i =>
    match m.children[i]?, m.scalar_fields[i]? with
    | some f, some e =>
      if new_position < m.children.length then
        ({ children := List.insertIdx new_position f (m.children.eraseIdx i),
           scalar_fields := List.insertIdx new_position e (m.scalar_fields.eraseIdx i) },
         true)
      else (m, false)
    | _, _ => (m, false)

/-- One child mutation of a structure node. -/
inductive MolOp where
  | add (f : FieldNodeM) (position : Option Nat)
  | remove (u : Nat)
  | reorder (u : Nat) (new_position : Nat)
deriving DecidableEq, Repr

/-- Apply one structure-node mutation, keeping only the post-state. -/
def apply_mol_op (m : MoleculeObjectM) (op : MolOp) : MoleculeObjectM :=
  match op with
  | MolOp.add f pos => (mol_add_child m f pos).1
  | MolOp.remove u => (mol_remove_child m u).1
  | MolOp.reorder u pos => (mol_reorder_child m u pos).1

/-- Apply a sequence of structure-node mutations. -/
def apply_mol_ops (m : MoleculeObjectM) (ops : List MolOp) : MoleculeObjectM :=
  ops.foldl apply_mol_op m

/-- Domain lockstep for a structure node: the children's `(name, payload)`
sequence is exactly the field map — same membership, same order. -/
def mol_lockstep (m : MoleculeObjectM) : Prop :=
  m.children.map (fun f => (f.fname, f.payload)) = m.scalar_fields

/-- A molecule (frame) child of an animation container: its identity and
its structure payload. -/
structure MolNodeM where
  uuid : Nat
  payload : Nat
deriving DecidableEq, Repr

/-- Modelled from the spec: `TrajectoryObject` (an animation-container
node, absent from the source tree).  It owns the ordered list of its
structure children and the backing frame sequence `trajectory`; every
child mutation mirrors the sequence at the same index (spec sections 2, 3
and 4.1). -/
structure TrajectoryObjectM where
  children : List MolNodeM
  trajectory : List Nat
deriving DecidableEq, Repr

/-- Modelled from the spec: adding a frame child inserts the child and its
payload at the same position of the child list and the frame sequence. -/
def traj_add_child (t : TrajectoryObjectM) (f : MolNodeM) (position : Option Nat) :
    TrajectoryObjectM × Bool :=
  match position with
  | none => ({ children := t.children ++ [f], trajectory := t.trajectory ++ [f.payload] }, true)
  | some pos =>
    if pos ≤ t.children.length then
      ({ children := List.insertIdx pos f t.children,
         trajectory := List.insertIdx pos f.payload t.trajectory }, true)
    else (t, false)

/-- Index of the first frame child with the given identity. -/
def frame_index (l : List MolNodeM) (u : Nat) : Option Nat :=
  match l with
  | [] => none
  | f :: r => if f.uuid = u then some 0 else (frame_index r u).map (· + 1)

/-- Modelled from the spec: removing a frame child deletes the child-list
entry and the frame-sequence element at the same index. -/
def traj_remove_child (t : TrajectoryObjectM) (u : Nat) : TrajectoryObjectM :=
  match frame_index t.children u with
  | none => t
  | some i => { children := t.children.eraseIdx i, trajectory := t.trajectory.eraseIdx i }

/-- Modelled from the spec: reordering a frame child relocates the
child-list entry and the frame-sequence element to the same new index. -/
def traj_reorder_child (t : TrajectoryObjectM) (u : Nat) (new_position : Nat) :
    TrajectoryObjectM × Bool :=
  match frame_index t.children u with
  | none => (t, false)
  | some i =>
    match t.children[i]?, t.trajectory[i]? with
    | some f, some e =>
      if new_position < t.children.length then
        ({ children := List.insertIdx new_position f (t.children.eraseIdx i),
           trajectory := List.insertIdx new_position e (t.trajectory.eraseIdx i) }, true)
      else (t, false)
    | _, _ => (t, false)

/-- One child mutation of an animation-container node. -/
inductive TrajOp where
  | add (f : MolNodeM) (position : Option Nat)
  | remove (u : Nat)
  | reorder (u : Nat) (new_position : Nat)
deriving DecidableEq, Repr

/-- Apply one animation-container mutation, keeping only the post-state. -/
def apply_traj_op (t : TrajectoryObjectM) (op : TrajOp) : TrajectoryObjectM :=
  match op with
  | TrajOp.add f pos => (traj_add_child t f pos).1
  | TrajOp.remove u => traj_remove_child t u
  | TrajOp.reorder u pos => (traj_reorder_child t u pos).1

/-- Apply a sequence of animation-container mutations. -/
def apply_traj_ops (t : TrajectoryObjectM) (ops : List TrajOp) : TrajectoryObjectM :=
  ops.foldl apply_traj_op t

/-- Domain lockstep for an animation container: the child at index `i`
carries the same payload as element `i` of the frame sequence. -/
def traj_lockstep (t : TrajectoryObjectM) : Prop :=
  t.children.map MolNodeM.payload = t.trajectory

/-- A concrete structure node in lockstep, for witnesses. -/
def molWitness : MoleculeObjectM :=
  { children := [⟨10, "density", 100⟩, ⟨11, "esp", 101⟩],
    scalar_fields := [("density", 100), ("esp", 101)] }

/-- A concrete animation container in lockstep, for witnesses. -/
def trajWitness : TrajectoryObjectM :=
  { children := [⟨20, 200⟩, ⟨21, 201⟩, ⟨22, 202⟩], trajectory := [200, 201, 202] }

/-!
Rose-tree embedding of the pure traversals `iter_tree` and
`iter_visible` (tree_structure.py lines 499-510).
-/

mutual

/-- A tree node as seen by the traversals: identity, visibility flag and
ordered children. -/
inductive VTree where
  | node (uuid : Nat) (visible : Bool) (children : VForest)

/-- An ordered forest of children. -/
inductive VForest where
  | nil
  | cons (head : VTree) (tail : VForest)

end

/-- Identity of a traversal node. -/
def VTree.uuid : VTree → Nat
  | .node u _ _ => u

/-- Visibility flag of a traversal node. -/
def VTree.visible : VTree → Bool
  | .node _ v _ => v

mutual

/-- `TreeNode.iter_tree` (tree_structure.py lines 499-503): pre-order —
yield the node itself, then recurse into the children in order.  (The
source pairs each node with its path; the path component plays no role
here.) -/
def iter_tree : VTree → List VTree
  | .node u v cs => .node u v cs :: iter_tree_forest cs

/-- The children loop of `iter_tree`. -/
def iter_tree_forest : VForest → List VTree
  | .nil => []
  | .cons t ts => iter_tree t ++ iter_tree_forest ts

end

mutual

/-- `TreeNode.iter_visible` (tree_structure.py lines 505-510): if the node
is visible, yield it and recurse into the children; otherwise yield
nothing at all. -/
def iter_visible : VTree → List VTree
  | .node u v cs => if v then .node u v cs :: iter_visible_forest cs else []

/-- The children loop of `iter_visible`. -/
def iter_visible_forest : VForest → List VTree
  | .nil => []
  | .cons t ts => iter_visible t ++ iter_visible_forest ts

end

/-- Identities of all nodes of the subtree rooted at `t`. -/
def uuids (t : VTree) : List Nat :=
  (iter_tree t).map VTree.uuid

/-- Identities of all nodes of a forest. -/
def uuids_forest (f : VForest) : List Nat :=
  (iter_tree_forest f).map VTree.uuid

/-- A concrete invisible node with one visible child, for witnesses. -/
def xWitness : VTree :=
  VTree.node 2 false (VForest.cons (VTree.node 3 true VForest.nil) VForest.nil)

/-- A concrete tree for witnesses: a visible root holding `xWitness` and a
visible sibling. -/
def tWitness : VTree :=
  VTree.node 1 true (VForest.cons xWitness
    (VForest.cons (VTree.node 4 true VForest.nil) VForest.nil))

/-! Helper lemmas about the heap. -/

theorem setNode_same (s : State) (i : Nat) (nd : Node) : setNode s i nd i = nd := by
  simp [setNode]

theorem setNode_other (s : State) (i : Nat) (nd : Node) (j : Nat) (h : j ≠ i) :
    setNode s i nd j = s j := by
  simp [setNode, h]

/-- Cache invalidation only touches `pathCache`: whether it completes or
raises, the structural fields of every node are unchanged. -/
theorem invalidate_path_cache_skeleton (fuel : Nat) :
    ∀ (s : State) (n m : Nat),
      ((out_state (invalidate_path_cache fuel s n)) m).childIds = (s m).childIds ∧
      ((out_state (invalidate_path_cache fuel s n)) m).parentId = (s m).parentId ∧
      ((out_state (invalidate_path_cache fuel s n)) m).hasSignals = (s m).hasSignals := by
  induction fuel with
  | zero =>
    intro s n m
    simp [invalidate_path_cache, out_state]
  | succ k ih =>
    intro s n m
    have hbase : ∀ j, ((setNode s n { s n with pathCache := none }) j).childIds = (s j).childIds ∧
        ((setNode s n { s n with pathCache := none }) j).parentId = (s j).parentId ∧
        ((setNode s n { s n with pathCache := none }) j).hasSignals = (s j).hasSignals := by
      intro j
      by_cases hj : j = n
      · subst hj
        simp [setNode_same]
      · simp [setNode_other _ _ _ _ hj]
    have hfold : ∀ (l : List Nat) (acc : Except State State),
        (∀ j, ((out_state acc) j).childIds = (s j).childIds ∧
          ((out_state acc) j).parentId = (s j).parentId ∧
          ((out_state acc) j).hasSignals = (s j).hasSignals) →
        ∀ j, ((out_state (l.foldl
            (fun acc2 c =>
              match acc2 with
              | Except.error e => Except.error e
              | Except.ok st => invalidate_path_cache k st c) acc)) j).childIds
            = (s j).childIds ∧
          ((out_state (l.foldl
            (fun acc2 c =>
              match acc2 with
              | Except.error e => Except.error e
              | Except.ok st => invalidate_path_cache k st c) acc)) j).parentId
            = (s j).parentId ∧
          ((out_state (l.foldl
            (fun acc2 c =>
              match acc2 with
              | Except.error e => Except.error e
              | Except.ok st => invalidate_path_cache k st c) acc)) j).hasSignals
            = (s j).hasSignals := by
      intro l
      induction l with
      | nil =>
        intro acc hacc j
        simpa using hacc j
      | cons a as ihl =>
        intro acc hacc j
        simp only [List.foldl_cons]
        apply ihl
        intro j2
        cases acc with
        | error e =>
          simpa using hacc j2
        | ok st =>
          have h2 := ih st a j2
          have h3 := hacc j2
          exact ⟨h2.1.trans h3.1, h2.2.1.trans h3.2.1, h2.2.2.trans h3.2.2⟩
    show ((out_state ((((setNode s n { s n with pathCache := none }) n).childIds).foldl
        (fun acc2 c =>
          match acc2 with
          | Except.error e => Except.error e
          | Except.ok st => invalidate_path_cache k st c)
        (Except.ok (setNode s n { s n with pathCache := none })))) m).childIds
        = (s m).childIds ∧ _ ∧ _
    exact hfold (((setNode s n { s n with pathCache := none }) n).childIds)
      (Except.ok (setNode s n { s n with pathCache := none })) hbase m

/-- In a duplicate-free list, an element does not survive its own erasure. -/
theorem not_mem_erase_self {l : List Nat} (hnd : l.Nodup) (c : Nat) : c ∉ l.erase c := by
  rw [hnd.erase_eq_filter]
  intro hmem
  have := List.mem_filter.mp hmem
  simp at this

/-- Erasing the element sitting at index `i` of a duplicate-free list and
reinserting it at `i` restores the list. -/
theorem insertIdx_erase_of_get (l : List Nat) (i c : Nat)
    (h : l[i]? = some c) (hnd : l.Nodup) :
    List.insertIdx i c (l.erase c) = l := by
  induction l generalizing i with
  | nil => simp at h
  | cons x xs ih =>
    match i with
    | 0 =>
      have hx : x = c := by simpa using h
      subst hx
      rw [List.erase_cons_head, List.insertIdx_zero]
    | Nat.succ j =>
      have h2 : xs[j]? = some c := by simpa using h
      have hx : x ∉ xs ∧ xs.Nodup := by simpa [List.nodup_cons] using hnd
      have hxc : ¬(x == c) := by
        simp only [beq_iff_eq]
        intro he
        exact hx.1 (he ▸ List.getElem?_mem h2)
      rw [List.erase_cons_tail hxc, List.insertIdx_succ_cons, ih j h2 hx.2]

/-! Claim theorems. -/

/-- On a heap where node 1 and node 2 list each other as children — the
cycle closed by the unguarded `move(a, b)` — the path-cache invalidation
exhausts every recursion budget: the Python original recurses forever and
dies with `RecursionError`, never returning. -/
theorem cyclic_invalidate_error (fuel : Nat) :
    ∀ (s : State), (s 1).childIds = [2] → (s 2).childIds = [1] →
      (∃ e, invalidate_path_cache fuel s 1 = Except.error e) ∧
      (∃ e, invalidate_path_cache fuel s 2 = Except.error e) := by
  induction fuel with
  | zero =>
    intro s h1 h2
    exact ⟨⟨s, rfl⟩, ⟨s, rfl⟩⟩
  | succ k ih =>
    intro s h1 h2
    constructor
    · have hs1a : ((setNode s 1 { s 1 with pathCache := none }) 1).childIds = [2] := by
        rw [setNode_same]
        exact h1
      have hs1b : ((setNode s 1 { s 1 with pathCache := none }) 2).childIds = [1] := by
        rw [setNode_other _ _ _ _ (by decide)]
        exact h2
      obtain ⟨e, he⟩ := (ih _ hs1a hs1b).2
      refine ⟨e, ?_⟩
      simp only [invalidate_path_cache]
      rw [hs1a]
      simp only [List.foldl_cons, List.foldl_nil]
      exact he
    · have hs1a : ((setNode s 2 { s 2 with pathCache := none }) 2).childIds = [1] := by
        rw [setNode_same]
        exact h2
      have hs1b : ((setNode s 2 { s 2 with pathCache := none }) 1).childIds = [2] := by
        rw [setNode_other _ _ _ _ (by decide)]
        exact h1
      obtain ⟨e, he⟩ := (ih _ hs1b hs1a).1
      refine ⟨e, ?_⟩
      simp only [invalidate_path_cache]
      rw [hs1a]
      simp only [List.foldl_cons, List.foldl_nil]
      exact he

/-- Claim C1: the spec promises that `move(ancestor, descendant)` always
fails with a `CyclicMove` result and leaves the tree unchanged.  The
source has no cycle guard at all: at every recursion budget, moving `a`
under its own descendant `b` first empties the root's child list and
splices `a` under `b` (closing an a-b ownership cycle detached from the
root), and then dies with an uncaught `RecursionError` inside the
path-cache invalidation — it neither returns a `CyclicMove` failure nor
leaves the tree as it was. -/
theorem move_into_descendant_raises_and_corrupts :
    ∀ fuel : Nat,
      raised (move fuel cycleState 1 2 none) = true ∧
      ((final_state (move fuel cycleState 1 2 none)) 0).childIds = [] ∧
      ((final_state (move fuel cycleState 1 2 none)) 1).parentId = some 2 ∧
      ((final_state (move fuel cycleState 1 2 none)) 2).childIds = [1] ∧
      ((final_state (move fuel cycleState 1 2 none)) 1).childIds = [2] := by
  intro fuel
  obtain ⟨e, he⟩ := (cyclic_invalidate_error fuel
    (setNode (setNode (setNode (setNode cycleState 0 { name := "root", childIds := [] })
        1 { name := "a", childIds := [2] })
      1 { name := "a", parentId := some 2, childIds := [2] })
      2 { name := "b", parentId := some 1, childIds := [1] })
    (by decide) (by decide)).1
  have hsk0 := invalidate_path_cache_skeleton fuel
    (setNode (setNode (setNode (setNode cycleState 0 { name := "root", childIds := [] })
        1 { name := "a", childIds := [2] })
      1 { name := "a", parentId := some 2, childIds := [2] })
      2 { name := "b", parentId := some 1, childIds := [1] }) 1 0
  have hsk1 := invalidate_path_cache_skeleton fuel
    (setNode (setNode (setNode (setNode cycleState 0 { name := "root", childIds := [] })
        1 { name := "a", childIds := [2] })
      1 { name := "a", parentId := some 2, childIds := [2] })
      2 { name := "b", parentId := some 1, childIds := [1] }) 1 1
  have hsk2 := invalidate_path_cache_skeleton fuel
    (setNode (setNode (setNode (setNode cycleState 0 { name := "root", childIds := [] })
        1 { name := "a", childIds := [2] })
      1 { name := "a", parentId := some 2, childIds := [2] })
      2 { name := "b", parentId := some 1, childIds := [1] }) 1 2
  rw [he] at hsk0 hsk1 hsk2
  simp only [out_state] at hsk0 hsk1 hsk2
  simp [move, add_child, can_add_child, remove_child, cycleState, setNode]
  rw [he]
  simp only [raised, final_state]
  rw [hsk0.1, hsk1.2.1, hsk2.1, hsk1.1]
  refine ⟨trivial, by decide, by decide, by decide, by decide⟩

/-- Witness for C1 at the concrete recursion budget 10. -/
theorem move_into_descendant_raises_and_corrupts_witness :
    raised (move 10 cycleState 1 2 none) = true ∧
    ((final_state (move 10 cycleState 1 2 none)) 0).childIds = [] ∧
    ((final_state (move 10 cycleState 1 2 none)) 1).parentId = some 2 ∧
    ((final_state (move 10 cycleState 1 2 none)) 2).childIds = [1] ∧
    ((final_state (move 10 cycleState 1 2 none)) 1).childIds = [2] :=
  move_into_descendant_raises_and_corrupts 10

/-- Claim C2: the spec promises `move` is all-or-nothing.  Moving `n` from
`p` to `q` with the out-of-range position 5 fails at the attach step, but
by then `n` has already been detached from `p`: the failure result is
returned with `n` parentless and listed under no parent. -/
theorem failed_move_leaves_node_detached :
    raised (move 10 detachState 3 2 (some 5)) = false ∧
    returned_ok (move 10 detachState 3 2 (some 5)) = false ∧
    ((final_state (move 10 detachState 3 2 (some 5))) 1).childIds = [] ∧
    ((final_state (move 10 detachState 3 2 (some 5))) 2).childIds = [] ∧
    ((final_state (move 10 detachState 3 2 (some 5))) 3).parentId = none := by
  decide

/-- Claim C5: the spec promises single ownership — a node is listed under
at most one parent, and membership in a parent's children coincides with
the parent pointer.  `add_child` never detaches from the old parent:
adding `n` (a child of `p1`) to `p2` succeeds and leaves `n` listed under
both parents, while `n`'s parent pointer names only `p2`. -/
theorem add_child_leaves_node_under_two_parents :
    raised (add_child 10 dualParentState 2 3 none true) = false ∧
    returned_ok (add_child 10 dualParentState 2 3 none true) = true ∧
    ((final_state (add_child 10 dualParentState 2 3 none true)) 1).childIds = [3] ∧
    ((final_state (add_child 10 dualParentState 2 3 none true)) 2).childIds = [3] ∧
    ((final_state (add_child 10 dualParentState 2 3 none true)) 3).parentId = some 2 := by
  decide

/-- Claim C6: the spec scenario expects `move(F2, T, position=0)` to
reorder the children to `F2, F0, F1` and emit exactly one
structure-changed event.  The same-parent branch dispatches to
`reorder_child`, whose `new_position or len - 1` treats the requested
position 0 as falsy and replaces it with the last index 2 — where `F2`
already sits.  The call reports success but reorders nothing and emits
nothing. -/
theorem same_parent_move_to_front_is_silent_noop :
    raised (move 10 trajState 3 0 (some 0)) = false ∧
    returned_ok (move 10 trajState 3 0 (some 0)) = true ∧
    ((final_state (move 10 trajState 3 0 (some 0))) 0).childIds = [1, 2, 3] ∧
    events_of (move 10 trajState 3 0 (some 0)) = [] := by
  decide

/-- Claim C7: the spec promises that a reorder to the current position is
a success that changes nothing and emits nothing, at any position
including 0.  For the child `a` currently at position 0 of a two-child
parent, `new_position or len - 1` coerces the requested position 0 to the
last index 1, so the call moves `a` to the end and emits a
structure-changed event. -/
theorem reorder_to_current_position_zero_reorders_and_emits :
    (reorder_child pairState 0 1 (some 0) true).ok = true ∧
    ((reorder_child pairState 0 1 (some 0) true).state 0).childIds = [2, 1] ∧
    (reorder_child pairState 0 1 (some 0) true).events = [Event.tree_structure_changed] := by
  decide

/-- Claim C4: the spec promises that for every node with a parent,
`node.path == node.parent.path.child(node.name)` always, with no stale
cached path ever observable.  `remove_child` clears the detached child's
parent pointer without invalidating any path cache, so after reading
`m.path` and removing `n` from the root, the attached node `m` (its parent
is still `n`) reports the stale cached path `/root/n/m` while its parent's
path recomputes to `/n`. -/
theorem stale_cached_path_after_remove :
    (staleAfter 2).parentId = some 1 ∧
    path 10 staleAfter 2 = ["root", "n", "m"] ∧
    NodePath.child (path 10 staleAfter 1) ((staleAfter 2).name) = ["n", "m"] ∧
    path 10 staleAfter 2 ≠ NodePath.child (path 10 staleAfter 1) ((staleAfter 2).name) := by
  decide

/-- Claim C10: the `visible` property setter emits `visibility_changed`
and `render_changed` whenever a signals object is present, even when the
assigned value equals the current one; `set_visibility` on an actual
change therefore emits `visibility_changed` twice (once from the setter,
once from itself), while a no-change call emits nothing and returns
`False`. -/
theorem visible_setter_and_set_visibility_emissions
    (s : State) (self node : Nat) (v : Bool)
    (h1 : (s node).hasSignals = true) (h2 : (s self).hasSignals = true) :
    (set_visible s node v).2 =
      [Event.visibility_changed node v, Event.render_changed node] ∧
    ((s node).visible ≠ v →
      (set_visibility s self node v).2.1 = true ∧
      (set_visibility s self node v).2.2 =
        [Event.visibility_changed node v, Event.render_changed node,
         Event.visibility_changed node v, Event.render_changed node] ∧
      ((set_visibility s self node v).2.2).count (Event.visibility_changed node v) = 2) ∧
    ((s node).visible = v → set_visibility s self node v = (s, false, [])) := by
  have hsetter : (set_visible s node v).2 =
      [Event.visibility_changed node v, Event.render_changed node] := by
    simp [set_visible, setNode_same, h1]
  refine ⟨hsetter, ?_, ?_⟩
  · intro hne
    have hself : ((set_visible s node v).1 self).hasSignals = true := by
      by_cases hsn : self = node
      · subst hsn
        simp [set_visible, setNode_same, h1]
      · simp [set_visible, setNode_other _ _ _ _ hsn, h2]
    have hlist : (set_visibility s self node v).2.2 =
        [Event.visibility_changed node v, Event.render_changed node,
         Event.visibility_changed node v, Event.render_changed node] := by
      simp only [set_visibility, if_pos hne, hself, if_true, hsetter]
      rfl
    refine ⟨by simp [set_visibility, hne], hlist, ?_⟩
    rw [hlist]
    have hvr : Event.visibility_changed node v ≠ Event.render_changed node := by
      intro h
      exact Event.noConfusion h
    simp [List.count_cons, hvr]
  · intro he
    simp [set_visibility, he]

/-- Witness for C10 at a concrete heap: node 0 is visible with signals, and
`set_visibility` from receiver 1 behaves as stated. -/
theorem visible_setter_and_set_visibility_emissions_witness :
    ((sigState 0).hasSignals = true ∧ (sigState 1).hasSignals = true) ∧
    ((set_visible sigState 0 false).2 =
      [Event.visibility_changed 0 false, Event.render_changed 0] ∧
    ((sigState 0).visible ≠ false →
      (set_visibility sigState 1 0 false).2.1 = true ∧
      (set_visibility sigState 1 0 false).2.2 =
        [Event.visibility_changed 0 false, Event.render_changed 0,
         Event.visibility_changed 0 false, Event.render_changed 0] ∧
      ((set_visibility sigState 1 0 false).2.2).count
          (Event.visibility_changed 0 false) = 2) ∧
    ((sigState 0).visible = false → set_visibility sigState 1 0 false = (sigState, false, []))) :=
  ⟨⟨rfl, rfl⟩, visible_setter_and_set_visibility_emissions sigState 1 0 false rfl rfl⟩

/-! Helper lemmas for the round-trip and lockstep claims. -/

theorem map_eraseIdx {α β : Type} (g : α → β) (l : List α) (i : Nat) :
    (l.eraseIdx i).map g = (l.map g).eraseIdx i := by
  induction l generalizing i with
  | nil => simp
  | cons x xs ih =>
    match i with
    | 0 => simp
    | Nat.succ k => simp [ih k]

theorem not_mem_eraseIdx_self {α : Type} {l : List α} (hnd : l.Nodup) (j : Nat) (a : α)
    (hj : l[j]? = some a) : a ∉ l.eraseIdx j := by
  induction l generalizing j with
  | nil => simp at hj
  | cons x xs ih =>
    match j with
    | 0 =>
      have hxa : x = a := by simpa using hj
      subst hxa
      have hx : x ∉ xs := (List.nodup_cons.mp hnd).1
      simpa using hx
    | Nat.succ k =>
      have h2 : xs[k]? = some a := by simpa using hj
      have hx := List.nodup_cons.mp hnd
      simp only [List.eraseIdx_cons_succ, List.mem_cons, not_or]
      constructor
      · intro he
        exact hx.1 (he ▸ List.getElem?_mem h2)
      · exact ih hx.2 k h2

theorem insertIdx_eraseIdx_get {α : Type} (l : List α) (j : Nat) (a : α)
    (hj : l[j]? = some a) : List.insertIdx j a (l.eraseIdx j) = l := by
  induction l generalizing j with
  | nil => simp at hj
  | cons x xs ih =>
    match j with
    | 0 =>
      have hxa : x = a := by simpa using hj
      subst hxa
      simp [List.insertIdx_zero]
    | Nat.succ k =>
      have h2 : xs[k]? = some a := by simpa using hj
      simp [List.insertIdx_succ_cons, ih k h2]

theorem uuid_index_of_get (l : List FieldNodeM) (j : Nat) (f : FieldNodeM)
    (hnd : (l.map FieldNodeM.uuid).Nodup) (hj : l[j]? = some f) :
    uuid_index l f.uuid = some j := by
  induction l generalizing j with
  | nil => simp at hj
  | cons x xs ih =>
    match j with
    | 0 =>
      have hxf : x = f := by simpa using hj
      subst hxf
      simp [uuid_index]
    | Nat.succ k =>
      have h2 : xs[k]? = some f := by simpa using hj
      have hx : x.uuid ∉ xs.map FieldNodeM.uuid ∧ (xs.map FieldNodeM.uuid).Nodup := by
        simpa [List.nodup_cons] using hnd
      have hne : ¬x.uuid = f.uuid := by
        intro he
        exact hx.1 (he ▸ List.mem_map_of_mem FieldNodeM.uuid (List.getElem?_mem h2))
      simp [uuid_index, hne, ih k hx.2 h2]

/-- When the child graph admits a rank function (children strictly
smaller), the invalidation from a node of rank below the budget completes
normally — the faithful counterpart of the Python recursion terminating
on an actual finite tree. -/
theorem invalidate_ok_of_rank (rank : Nat → Nat) :
    ∀ (fuel : Nat) (s : State) (n : Nat),
      (∀ j k2, k2 ∈ ((s j).childIds) → rank k2 < rank j) → rank n < fuel →
      ∃ s2, invalidate_path_cache fuel s n = Except.ok s2 := by
  intro fuel
  induction fuel with
  | zero =>
    intro s n _ hn
    exact absurd hn (Nat.not_lt_zero _)
  | succ k ih =>
    intro s n hrank hn
    have hs1 : ∀ j, ((setNode s n { s n with pathCache := none }) j).childIds = (s j).childIds := by
      intro j
      by_cases hj : j = n
      · subst hj
        rw [setNode_same]
      · rw [setNode_other _ _ _ _ hj]
    have hsub : ∀ c2 ∈ (s n).childIds, rank c2 < k := by
      intro c2 hc2
      have := hrank n c2 hc2
      omega
    have hfold : ∀ (l : List Nat), (∀ c2 ∈ l, rank c2 < k) →
        ∀ (st : State), (∀ j, (st j).childIds = (s j).childIds) →
        ∃ s2, (l.foldl
            (fun acc c2 =>
              match acc with
              | Except.error e => Except.error e
              | Except.ok st2 => invalidate_path_cache k st2 c2) (Except.ok st))
          = Except.ok s2 ∧ (∀ j, (s2 j).childIds = (s j).childIds) := by
      intro l
      induction l with
      | nil =>
        intro _ st hst
        exact ⟨st, rfl, hst⟩
      | cons a as ihl =>
        intro hall st hst
        have hranka : rank a < k := hall a (List.mem_cons_self a as)
        have hstrank : ∀ j k2, k2 ∈ ((st j).childIds) → rank k2 < rank j := by
          intro j k2 hk2
          rw [hst j] at hk2
          exact hrank j k2 hk2
        obtain ⟨s2, h2⟩ := ih st a hstrank hranka
        have hs2c : ∀ j, (s2 j).childIds = (s j).childIds := by
          intro j
          have hsk := (invalidate_path_cache_skeleton k st a j).1
          rw [h2] at hsk
          exact hsk.trans (hst j)
        obtain ⟨s3, h3, hs3⟩ := ihl (fun c2 hc2 => hall c2 (List.mem_cons_of_mem a hc2)) s2 hs2c
        refine ⟨s3, ?_, hs3⟩
        simp only [List.foldl_cons]
        show List.foldl _ (invalidate_path_cache k st a) as = Except.ok s3
        rw [h2]
        exact h3
    obtain ⟨s2, h2, -⟩ := hfold (((setNode s n { s n with pathCache := none }) n).childIds)
      (fun c2 hc2 => hsub c2 (by rwa [hs1 n] at hc2))
      (setNode s n { s n with pathCache := none }) hs1
    exact ⟨s2, by simpa only [invalidate_path_cache] using h2⟩

theorem frame_index_of_get (l : List MolNodeM) (j : Nat) (f : MolNodeM)
    (hnd : (l.map MolNodeM.uuid).Nodup) (hj : l[j]? = some f) :
    frame_index l f.uuid = some j := by
  induction l generalizing j with
  | nil => simp at hj
  | cons x xs ih =>
    match j with
    | 0 =>
      have hxf : x = f := by simpa using hj
      subst hxf
      simp [frame_index]
    | Nat.succ k =>
      have h2 : xs[k]? = some f := by simpa using hj
      have hx : x.uuid ∉ xs.map MolNodeM.uuid ∧ (xs.map MolNodeM.uuid).Nodup := by
        simpa [List.nodup_cons] using hnd
      have hne : ¬x.uuid = f.uuid := by
        intro he
        exact hx.1 (he ▸ List.mem_map_of_mem MolNodeM.uuid (List.getElem?_mem h2))
      simp [frame_index, hne, ih k hx.2 h2]

/-- Claim C9: removing the child at position `i` and re-adding it at
position `i` restores the parent's child order exactly and re-establishes
the parent pointer (the rank hypothesis says the child graph is a genuine
finite tree within the recursion budget, so the re-add completes instead
of raising); for the (spec-modelled) domain nodes, the same round trip
restores a structure node's children and field map identically, and an
animation container's children and frame sequence identically. -/
theorem remove_then_add_restores
    (fuel : Nat) (s : State) (p c i : Nat) (rank : Nat → Nat)
    (hcp : c ≠ p)
    (hnd : ((s p).childIds).Nodup)
    (hi : ((s p).childIds)[i]? = some c)
    (hrank : ∀ j k2, k2 ∈ ((s j).childIds) → rank k2 < rank j)
    (hfuel : rank c < fuel)
    (m : MoleculeObjectM) (j : Nat) (f : FieldNodeM)
    (hml : mol_lockstep m)
    (hmu : (m.children.map FieldNodeM.uuid).Nodup)
    (hmn : (m.children.map FieldNodeM.fname).Nodup)
    (hmj : m.children[j]? = some f)
    (t : TrajectoryObjectM) (j2 : Nat) (f2 : MolNodeM)
    (htl : traj_lockstep t)
    (htu : (t.children.map MolNodeM.uuid).Nodup)
    (htj : t.children[j2]? = some f2) :
    (raised (add_child fuel (remove_child s p c true).state p c (some i) true) = false ∧
     returned_ok (add_child fuel (remove_child s p c true).state p c (some i) true) = true ∧
     ((final_state (add_child fuel (remove_child s p c true).state p c (some i) true)) p).childIds
        = (s p).childIds ∧
     ((final_state (add_child fuel (remove_child s p c true).state p c (some i) true)) c).parentId
        = some p) ∧
    ((mol_add_child (mol_remove_child m f.uuid).1 f (some j)).2.1 = true ∧
     (mol_add_child (mol_remove_child m f.uuid).1 f (some j)).1 = m) ∧
    ((traj_add_child (traj_remove_child t f2.uuid) f2 (some j2)).2 = true ∧
     (traj_add_child (traj_remove_child t f2.uuid) f2 (some j2)).1 = t) := by
  obtain ⟨hlt, -⟩ := List.getElem?_eq_some.mp hi
  have hcmem : c ∈ (s p).childIds := List.getElem?_mem hi
  refine ⟨?_, ?_, ?_⟩
  · -- the TreeNode round trip
    have hrem : (remove_child s p c true).state =
        setNode (setNode s p { s p with childIds := ((s p).childIds).erase c }) c
          { (setNode s p { s p with childIds := ((s p).childIds).erase c }) c with
            parentId := none } := by
      simp [remove_child, hcmem]
    have h2p : ((remove_child s p c true).state p).childIds = ((s p).childIds).erase c := by
      rw [hrem, setNode_other _ _ _ _ (Ne.symm hcp), setNode_same]
    have hlen : i ≤ (((s p).childIds).erase c).length := by
      rw [List.length_erase_of_mem hcmem]
      omega
    have hnotmem : c ∉ ((s p).childIds).erase c := not_mem_erase_self hnd c
    have hmidc : ∀ j3, ((setNode (setNode (remove_child s p c true).state c
          { (remove_child s p c true).state c with parentId := some p }) p
        { (setNode (remove_child s p c true).state c
            { (remove_child s p c true).state c with parentId := some p }) p with
          childIds := ((setNode (remove_child s p c true).state c
            { (remove_child s p c true).state c with parentId := some p }) p).childIds
              ++ [c] }) j3).childIds
        = if j3 = p then ((s p).childIds).erase c ++ [c] else (s j3).childIds := by
      intro j3
      by_cases hjp : j3 = p
      · rw [hjp, if_pos rfl, setNode_same]
        show ((setNode (remove_child s p c true).state c
            { (remove_child s p c true).state c with parentId := some p }) p).childIds ++ [c]
          = ((s p).childIds).erase c ++ [c]
        rw [setNode_other _ _ _ _ (Ne.symm hcp), h2p]
      · rw [if_neg hjp, setNode_other _ _ _ _ hjp]
        by_cases hjc : j3 = c
        · rw [hjc, setNode_same]
          show ((remove_child s p c true).state c).childIds = (s c).childIds
          rw [hrem, setNode_same]
          show ((setNode s p { s p with childIds := ((s p).childIds).erase c }) c).childIds
            = (s c).childIds
          rw [setNode_other _ _ _ _ hcp]
        · rw [setNode_other _ _ _ _ hjc, hrem,
            setNode_other _ _ _ _ hjc, setNode_other _ _ _ _ hjp]
    have hrank_mid : ∀ j3 k2, k2 ∈ ((setNode (setNode (remove_child s p c true).state c
          { (remove_child s p c true).state c with parentId := some p }) p
        { (setNode (remove_child s p c true).state c
            { (remove_child s p c true).state c with parentId := some p }) p with
          childIds := ((setNode (remove_child s p c true).state c
            { (remove_child s p c true).state c with parentId := some p }) p).childIds
              ++ [c] }) j3).childIds → rank k2 < rank j3 := by
      intro j3 k2 hk2
      rw [hmidc j3] at hk2
      by_cases hjp : j3 = p
      · rw [hjp] at hk2 ⊢
        rw [if_pos rfl] at hk2
        rcases List.mem_append.mp hk2 with h | h
        · exact hrank p k2 (List.mem_of_mem_erase h)
        · have hkc : k2 = c := by simpa using h
          rw [hkc]
          exact hrank p c hcmem
      · rw [if_neg hjp] at hk2
        exact hrank j3 k2 hk2
    obtain ⟨s5, h5⟩ := invalidate_ok_of_rank rank fuel
      (setNode (setNode (remove_child s p c true).state c
          { (remove_child s p c true).state c with parentId := some p }) p
        { (setNode (remove_child s p c true).state c
            { (remove_child s p c true).state c with parentId := some p }) p with
          childIds := ((setNode (remove_child s p c true).state c
            { (remove_child s p c true).state c with parentId := some p }) p).childIds
              ++ [c] }) c hrank_mid hfuel
    have hsk5 : ∀ mm, (s5 mm).childIds = ((setNode (setNode (remove_child s p c true).state c
          { (remove_child s p c true).state c with parentId := some p }) p
        { (setNode (remove_child s p c true).state c
            { (remove_child s p c true).state c with parentId := some p }) p with
          childIds := ((setNode (remove_child s p c true).state c
            { (remove_child s p c true).state c with parentId := some p }) p).childIds
              ++ [c] }) mm).childIds ∧
        (s5 mm).parentId = ((setNode (setNode (remove_child s p c true).state c
          { (remove_child s p c true).state c with parentId := some p }) p
        { (setNode (remove_child s p c true).state c
            { (remove_child s p c true).state c with parentId := some p }) p with
          childIds := ((setNode (remove_child s p c true).state c
            { (remove_child s p c true).state c with parentId := some p }) p).childIds
              ++ [c] }) mm).parentId := by
      intro mm
      have hsk := invalidate_path_cache_skeleton fuel
        (setNode (setNode (remove_child s p c true).state c
            { (remove_child s p c true).state c with parentId := some p }) p
          { (setNode (remove_child s p c true).state c
              { (remove_child s p c true).state c with parentId := some p }) p with
            childIds := ((setNode (remove_child s p c true).state c
              { (remove_child s p c true).state c with parentId := some p }) p).childIds
                ++ [c] }) c mm
      rw [h5] at hsk
      exact ⟨hsk.1, hsk.2.1⟩
    simp only [add_child, can_add_child, h2p, Bool.true_eq_false, if_false, hlen, if_true,
      hnotmem, ite_false, ite_true, h5, raised, returned_ok, final_state]
    refine ⟨trivial, trivial, ?_, ?_⟩
    · rw [setNode_same]
      show List.insertIdx i c (((s5 p).childIds).erase c) = (s p).childIds
      rw [(hsk5 p).1, hmidc p, if_pos rfl, List.erase_append_right _ hnotmem,
        List.erase_cons_head, List.append_nil, insertIdx_erase_of_get _ _ _ hi hnd]
    · rw [setNode_other _ _ _ _ hcp, (hsk5 c).2, setNode_other _ _ _ _ hcp, setNode_same]
  · -- the (spec-modelled) structure-node round trip
    obtain ⟨hjlt, -⟩ := List.getElem?_eq_some.mp hmj
    have hidx : uuid_index m.children f.uuid = some j := uuid_index_of_get _ _ _ hmu hmj
    have hremm : (mol_remove_child m f.uuid).1 =
        { children := m.children.eraseIdx j, scalar_fields := m.scalar_fields.eraseIdx j } := by
      simp [mol_remove_child, hidx]
    have hnames : (m.children.map FieldNodeM.fname)[j]? = some f.fname := by
      rw [List.getElem?_map, hmj]
      rfl
    have hany : (m.children.eraseIdx j).any (fun c => c.fname == f.fname) = false := by
      rw [List.any_eq_false]
      intro x hx hbeq
      have hxe : x.fname = f.fname := by simpa using hbeq
      have hmem : x.fname ∈ (m.children.eraseIdx j).map FieldNodeM.fname :=
        List.mem_map_of_mem FieldNodeM.fname hx
      rw [map_eraseIdx] at hmem
      exact not_mem_eraseIdx_self hmn j f.fname hnames (hxe ▸ hmem)
    have hlenm : j ≤ (m.children.eraseIdx j).length := by
      rw [List.length_eraseIdx_of_lt hjlt]
      omega
    have hfentry : m.scalar_fields[j]? = some (f.fname, f.payload) := by
      rw [← hml, List.getElem?_map, hmj]
      rfl
    rw [hremm]
    simp only [mol_add_child, mol_can_add_child, hany, Bool.false_eq_true, if_false,
      Bool.true_eq_false, hlenm, if_true, ite_true, ite_false]
    refine ⟨trivial, ?_⟩
    rw [insertIdx_eraseIdx_get _ _ _ hmj, insertIdx_eraseIdx_get _ _ _ hfentry]
  · -- the (spec-modelled) animation-container round trip
    obtain ⟨hj2lt, -⟩ := List.getElem?_eq_some.mp htj
    have hidx2 : frame_index t.children f2.uuid = some j2 := frame_index_of_get _ _ _ htu htj
    have hremt : traj_remove_child t f2.uuid =
        { children := t.children.eraseIdx j2, trajectory := t.trajectory.eraseIdx j2 } := by
      simp [traj_remove_child, hidx2]
    have hlent : j2 ≤ (t.children.eraseIdx j2).length := by
      rw [List.length_eraseIdx_of_lt hj2lt]
      omega
    have htentry : t.trajectory[j2]? = some f2.payload := by
      rw [← htl, List.getElem?_map, htj]
      rfl
    rw [hremt]
    simp only [traj_add_child, hlent, if_true, ite_true]
    refine ⟨trivial, ?_⟩
    rw [insertIdx_eraseIdx_get _ _ _ htj, insertIdx_eraseIdx_get _ _ _ htentry]

/-- Witness for C9: removing child 2 (at position 1) of `roundState`'s
parent 0 and re-adding it at position 1 restores the order `[1, 2, 3]`
with the add returning normally; the modelled structure node `molWitness`
round-trips its field `esp` and the modelled animation container
`trajWitness` round-trips its middle frame. -/
theorem remove_then_add_restores_witness :
    ((2 : Nat) ≠ 0 ∧ ((roundState 0).childIds).Nodup ∧
     ((roundState 0).childIds)[1]? = some 2 ∧
     (∀ j3 k2, k2 ∈ ((roundState j3).childIds) →
        (fun j4 => if j4 = 0 then 1 else 0) k2 < (fun j4 => if j4 = 0 then 1 else 0) j3) ∧
     (fun j4 => if j4 = 0 then 1 else 0) 2 < 10 ∧
     mol_lockstep molWitness ∧
     (molWitness.children.map FieldNodeM.uuid).Nodup ∧
     (molWitness.children.map FieldNodeM.fname).Nodup ∧
     molWitness.children[1]? = some ⟨11, "esp", 101⟩ ∧
     traj_lockstep trajWitness ∧
     (trajWitness.children.map MolNodeM.uuid).Nodup ∧
     trajWitness.children[1]? = some ⟨21, 201⟩) ∧
    ((raised (add_child 10 (remove_child roundState 0 2 true).state 0 2 (some 1) true) = false ∧
      returned_ok (add_child 10 (remove_child roundState 0 2 true).state 0 2 (some 1) true)
        = true ∧
      ((final_state (add_child 10 (remove_child roundState 0 2 true).state 0 2 (some 1) true))
          0).childIds = (roundState 0).childIds ∧
      ((final_state (add_child 10 (remove_child roundState 0 2 true).state 0 2 (some 1) true))
          2).parentId = some 0) ∧
     ((mol_add_child (mol_remove_child molWitness 11).1 ⟨11, "esp", 101⟩ (some 1)).2.1 = true ∧
      (mol_add_child (mol_remove_child molWitness 11).1 ⟨11, "esp", 101⟩ (some 1)).1
        = molWitness) ∧
     ((traj_add_child (traj_remove_child trajWitness 21) ⟨21, 201⟩ (some 1)).2 = true ∧
      (traj_add_child (traj_remove_child trajWitness 21) ⟨21, 201⟩ (some 1)).1
        = trajWitness)) := by
  have hrankw : ∀ j3 k2, k2 ∈ ((roundState j3).childIds) →
      (fun j4 => if j4 = 0 then 1 else 0) k2 < (fun j4 => if j4 = 0 then 1 else 0) j3 := by
    intro j3 k2 hk2
    by_cases hj : j3 = 0
    · subst hj
      simp [roundState] at hk2
      rcases hk2 with rfl | rfl | rfl <;> decide
    · exfalso
      have hempty : (roundState j3).childIds = [] := by
        by_cases h1 : j3 = 1
        · subst h1
          rfl
        · by_cases h2 : j3 = 2
          · subst h2
            rfl
          · by_cases h3 : j3 = 3
            · subst h3
              rfl
            · simp [roundState, hj, h1, h2, h3]
      rw [hempty] at hk2
      simp at hk2
  exact ⟨⟨by decide, by decide, by decide, hrankw, by decide, rfl, by decide, by decide, rfl,
      rfl, by decide, rfl⟩,
    remove_then_add_restores 10 roundState 0 2 1 (fun j4 => if j4 = 0 then 1 else 0)
      (by decide) (by decide) (by decide) hrankw (by decide)
      molWitness 1 ⟨11, "esp", 101⟩ rfl (by decide) (by decide) rfl
      trajWitness 1 ⟨21, 201⟩ rfl (by decide) rfl⟩

/-! Lockstep preservation for the modelled domain nodes. -/

theorem map_insertIdx {α β : Type} (g : α → β) (l : List α) (i : Nat) (a : α) :
    (List.insertIdx i a l).map g = List.insertIdx i (g a) (l.map g) := by
  induction l generalizing i with
  | nil =>
    match i with
    | 0 => simp
    | Nat.succ k => simp [List.insertIdx_succ_nil]
  | cons x xs ih =>
    match i with
    | 0 => simp
    | Nat.succ k => simp [List.insertIdx_succ_cons, ih k]

theorem mol_lockstep_add (m : MoleculeObjectM) (f : FieldNodeM) (pos : Option Nat)
    (h : mol_lockstep m) : mol_lockstep (mol_add_child m f pos).1 := by
  unfold mol_add_child mol_can_add_child
  by_cases hdup : m.children.any (fun c => c.fname == f.fname)
  · simpa [hdup] using h
  · match pos with
    | none =>
      simp only [hdup, Bool.false_eq_true, if_false, Bool.true_eq_false, ite_false]
      simp [mol_lockstep, List.map_append] at h ⊢
      exact h
    | some k =>
      by_cases hk : k ≤ m.children.length
      · simp only [hdup, Bool.false_eq_true, if_false, Bool.true_eq_false, ite_false, hk,
          if_true, ite_true]
        simp only [mol_lockstep] at h ⊢
        rw [map_insertIdx, h]
      · simpa [hdup, hk] using h

theorem mol_lockstep_remove (m : MoleculeObjectM) (u : Nat)
    (h : mol_lockstep m) : mol_lockstep (mol_remove_child m u).1 := by
  unfold mol_remove_child
  cases hidx : uuid_index m.children u with
  | none => simpa using h
  | some i =>
    simp only [mol_lockstep] at h ⊢
    rw [map_eraseIdx, h]

theorem mol_lockstep_reorder (m : MoleculeObjectM) (u np : Nat)
    (h : mol_lockstep m) : mol_lockstep (mol_reorder_child m u np).1 := by
  unfold mol_reorder_child
  cases hidx : uuid_index m.children u with
  | none => simpa using h
  | some i =>
    cases hgc : m.children[i]? with
    | none => simpa [hgc] using h
    | some f =>
      cases hgf : m.scalar_fields[i]? with
      | none => simpa [hgc, hgf] using h
      | some e =>
        by_cases hnp : np < m.children.length
        · simp only [hgc, hgf, hnp, if_true, ite_true]
          have he : e = (f.fname, f.payload) := by
            rw [← h, List.getElem?_map, hgc] at hgf
            simpa using hgf.symm
          simp only [mol_lockstep] at h ⊢
          rw [map_insertIdx, map_eraseIdx, h, he]
        · simpa [hgc, hgf, hnp] using h

theorem mol_lockstep_ops (ops : List MolOp) :
    ∀ m, mol_lockstep m → mol_lockstep (apply_mol_ops m ops) := by
  induction ops with
  | nil =>
    intro m h
    simpa [apply_mol_ops] using h
  | cons op rest ih =>
    intro m h
    have h1 : mol_lockstep (apply_mol_op m op) := by
      cases op with
      | add f pos => exact mol_lockstep_add m f pos h
      | remove u => exact mol_lockstep_remove m u h
      | reorder u np => exact mol_lockstep_reorder m u np h
    simpa [apply_mol_ops, List.foldl_cons] using ih (apply_mol_op m op) h1

theorem traj_lockstep_add (t : TrajectoryObjectM) (f : MolNodeM) (pos : Option Nat)
    (h : traj_lockstep t) : traj_lockstep (traj_add_child t f pos).1 := by
  unfold traj_add_child
  match pos with
  | none =>
    simp only [traj_lockstep] at h ⊢
    rw [List.map_append, h]
    rfl
  | some k =>
    by_cases hk : k ≤ t.children.length
    · simp only [hk, if_true, ite_true]
      simp only [traj_lockstep] at h ⊢
      rw [map_insertIdx, h]
    · simpa [hk] using h

theorem traj_lockstep_remove (t : TrajectoryObjectM) (u : Nat)
    (h : traj_lockstep t) : traj_lockstep (traj_remove_child t u) := by
  unfold traj_remove_child
  cases hidx : frame_index t.children u with
  | none => simpa using h
  | some i =>
    simp only [traj_lockstep] at h ⊢
    rw [map_eraseIdx, h]

theorem traj_lockstep_reorder (t : TrajectoryObjectM) (u np : Nat)
    (h : traj_lockstep t) : traj_lockstep (traj_reorder_child t u np).1 := by
  unfold traj_reorder_child
  cases hidx : frame_index t.children u with
  | none => simpa using h
  | some i =>
    cases hgc : t.children[i]? with
    | none => simpa [hgc] using h
    | some f =>
      cases hgf : t.trajectory[i]? with
      | none => simpa [hgc, hgf] using h
      | some e =>
        by_cases hnp : np < t.children.length
        · simp only [hgc, hgf, hnp, if_true, ite_true]
          have he : e = f.payload := by
            rw [← h, List.getElem?_map, hgc] at hgf
            simpa using hgf.symm
          simp only [traj_lockstep] at h ⊢
          rw [map_insertIdx, map_eraseIdx, h, he]
        · simpa [hgc, hgf, hnp] using h

theorem traj_lockstep_ops (ops : List TrajOp) :
    ∀ t, traj_lockstep t → traj_lockstep (apply_traj_ops t ops) := by
  induction ops with
  | nil =>
    intro t h
    simpa [apply_traj_ops] using h
  | cons op rest ih =>
    intro t h
    have h1 : traj_lockstep (apply_traj_op t op) := by
      cases op with
      | add f pos => exact traj_lockstep_add t f pos h
      | remove u => exact traj_lockstep_remove t u h
      | reorder u np => exact traj_lockstep_reorder t u np h
    simpa [apply_traj_ops, List.foldl_cons] using ih (apply_traj_op t op) h1

/-- Claim C3: the (spec-modelled) domain nodes keep tree and backing
collection in lockstep through every sequence of add/remove/reorder
mutations (a cross-container move being a remove in one container and an
add in the other): a structure node's children match its field map in
membership and order, and an animation container's child at index `i`
carries the payload of frame `i`. -/
theorem domain_lockstep_preserved
    (m : MoleculeObjectM) (mops : List MolOp) (hm : mol_lockstep m)
    (t : TrajectoryObjectM) (tops : List TrajOp) (ht : traj_lockstep t) :
    mol_lockstep (apply_mol_ops m mops) ∧
    (apply_mol_ops m mops).children.map FieldNodeM.fname
      = (apply_mol_ops m mops).scalar_fields.map Prod.fst ∧
    traj_lockstep (apply_traj_ops t tops) ∧
    (∀ i : Nat, ((apply_traj_ops t tops).children[i]?).map MolNodeM.payload
      = (apply_traj_ops t tops).trajectory[i]?) := by
  have h1 := mol_lockstep_ops mops m hm
  have h2 := traj_lockstep_ops tops t ht
  refine ⟨h1, ?_, h2, ?_⟩
  · rw [← h1]
    rw [List.map_map]
    rfl
  · intro i
    rw [← h2, List.getElem?_map]

/-- Witness for C3: a concrete structure node and animation container in
lockstep stay in lockstep under a concrete batch of mutations (a
positioned add, a remove and a reorder each). -/
theorem domain_lockstep_preserved_witness :
    (mol_lockstep molWitness ∧ traj_lockstep trajWitness) ∧
    (mol_lockstep (apply_mol_ops molWitness
        [MolOp.add ⟨12, "spin", 102⟩ (some 0), MolOp.remove 10, MolOp.reorder 11 0]) ∧
     (apply_mol_ops molWitness
        [MolOp.add ⟨12, "spin", 102⟩ (some 0), MolOp.remove 10, MolOp.reorder 11 0]).children.map
          FieldNodeM.fname
       = (apply_mol_ops molWitness
        [MolOp.add ⟨12, "spin", 102⟩ (some 0), MolOp.remove 10, MolOp.reorder 11 0]).scalar_fields.map
          Prod.fst ∧
     traj_lockstep (apply_traj_ops trajWitness
        [TrajOp.add ⟨23, 203⟩ none, TrajOp.remove 20, TrajOp.reorder 22 0]) ∧
     (∀ i : Nat, ((apply_traj_ops trajWitness
        [TrajOp.add ⟨23, 203⟩ none, TrajOp.remove 20, TrajOp.reorder 22 0]).children[i]?).map
          MolNodeM.payload
       = (apply_traj_ops trajWitness
        [TrajOp.add ⟨23, 203⟩ none, TrajOp.remove 20, TrajOp.reorder 22 0]).trajectory[i]?)) :=
  ⟨⟨rfl, rfl⟩,
   domain_lockstep_preserved molWitness
     [MolOp.add ⟨12, "spin", 102⟩ (some 0), MolOp.remove 10, MolOp.reorder 11 0] rfl
     trajWitness [TrajOp.add ⟨23, 203⟩ none, TrajOp.remove 20, TrajOp.reorder 22 0] rfl⟩

/-! Visibility pruning over the rose-tree embedding of the traversals. -/

theorem uuids_node (u : Nat) (v : Bool) (cs : VForest) :
    uuids (VTree.node u v cs) = u :: uuids_forest cs := by
  simp [uuids, uuids_forest, iter_tree, VTree.uuid]

theorem uuids_forest_cons (t : VTree) (ts : VForest) :
    uuids_forest (VForest.cons t ts) = uuids t ++ uuids_forest ts := by
  simp [uuids_forest, uuids, iter_tree_forest]

mutual

theorem iter_visible_sublist : (t : VTree) → List.Sublist (iter_visible t) (iter_tree t)
  | .node u v cs => by
    cases v with
    | false => simp [iter_visible, iter_tree]
    | true =>
      simp [iter_visible, iter_tree]
      exact iter_visible_forest_sublist cs

theorem iter_visible_forest_sublist :
    (f : VForest) → List.Sublist (iter_visible_forest f) (iter_tree_forest f)
  | .nil => by simp [iter_visible_forest, iter_tree_forest]
  | .cons t ts =>
    List.Sublist.append (iter_visible_sublist t) (iter_visible_forest_sublist ts)

end

mutual

theorem uuids_subset_of_mem : (t x : VTree) → x ∈ iter_tree t →
    ∀ u, u ∈ uuids x → u ∈ uuids t
  | .node i v cs, x, hx, u, hu => by
    rw [uuids_node]
    rcases List.mem_cons.mp (show x ∈ VTree.node i v cs :: iter_tree_forest cs by
      simpa [iter_tree] using hx) with heq | hmem
    · subst heq
      simpa [uuids_node] using hu
    · exact List.mem_cons_of_mem _ (uuids_forest_subset_of_mem cs x hmem u hu)

theorem uuids_forest_subset_of_mem : (f : VForest) → (x : VTree) → x ∈ iter_tree_forest f →
    ∀ u, u ∈ uuids x → u ∈ uuids_forest f
  | .nil, x, hx, u, hu => by simp [iter_tree_forest] at hx
  | .cons t ts, x, hx, u, hu => by
    rw [uuids_forest_cons]
    rcases List.mem_append.mp (show x ∈ iter_tree t ++ iter_tree_forest ts by
      simpa [iter_tree_forest] using hx) with h1 | h2
    · exact List.mem_append.mpr (Or.inl (uuids_subset_of_mem t x h1 u hu))
    · exact List.mem_append.mpr (Or.inr (uuids_forest_subset_of_mem ts x h2 u hu))

end

mutual

theorem prune_tree : (t x : VTree) → x ∈ iter_tree t → x.visible = false →
    (uuids t).Nodup → ∀ y ∈ iter_visible t, y.uuid ∉ uuids x
  | .node i v cs, x, hx, hv, hnd, y, hy => by
    rcases List.mem_cons.mp (show x ∈ VTree.node i v cs :: iter_tree_forest cs by
      simpa [iter_tree] using hx) with heq | hmem
    · subst heq
      have hvf : v = false := by simpa [VTree.visible] using hv
      subst hvf
      simp [iter_visible] at hy
    · cases v with
      | false => simp [iter_visible] at hy
      | true =>
        rw [uuids_node] at hnd
        have hni : i ∉ uuids_forest cs := (List.nodup_cons.mp hnd).1
        have hy2 : y = VTree.node i true cs ∨ y ∈ iter_visible_forest cs := by
          simpa [iter_visible] using hy
        rcases hy2 with rfl | hy3
        · intro hmemx
          exact hni (uuids_forest_subset_of_mem cs x hmem i
            (by simpa [VTree.uuid] using hmemx))
        · exact prune_forest cs x hmem hv (List.nodup_cons.mp hnd).2 y hy3

theorem prune_forest : (f : VForest) → (x : VTree) → x ∈ iter_tree_forest f →
    x.visible = false → (uuids_forest f).Nodup →
    ∀ y ∈ iter_visible_forest f, y.uuid ∉ uuids x
  | .nil, x, hx, _, _, y, hy => by simp [iter_tree_forest] at hx
  | .cons t ts, x, hx, hv, hnd, y, hy => by
    rw [uuids_forest_cons] at hnd
    obtain ⟨hnd1, hnd2, hdisj⟩ := List.nodup_append.mp hnd
    have hy2 : y ∈ iter_visible t ∨ y ∈ iter_visible_forest ts := by
      simpa [iter_visible_forest] using hy
    rcases List.mem_append.mp (show x ∈ iter_tree t ++ iter_tree_forest ts by
      simpa [iter_tree_forest] using hx) with hx1 | hx2
    · rcases hy2 with hy1 | hy3
      · exact prune_tree t x hx1 hv hnd1 y hy1
      · intro hmemx
        have hyt : y ∈ iter_tree_forest ts := (iter_visible_forest_sublist ts).subset hy3
        have hyu : y.uuid ∈ uuids_forest ts := List.mem_map_of_mem VTree.uuid hyt
        have hxu : y.uuid ∈ uuids t := uuids_subset_of_mem t x hx1 y.uuid hmemx
        exact hdisj hxu hyu
    · rcases hy2 with hy1 | hy3
      · intro hmemx
        have hyt : y ∈ iter_tree t := (iter_visible_sublist t).subset hy1
        have hyu : y.uuid ∈ uuids t := List.mem_map_of_mem VTree.uuid hyt
        have hxu : y.uuid ∈ uuids_forest ts := uuids_forest_subset_of_mem ts x hx2 y.uuid hmemx
        exact hdisj hyu hxu
      · exact prune_forest ts x hx2 hv hnd2 y hy3

end

/-- Claim C8: if `x` is invisible, `iter_visible` on `x` yields nothing,
and `iter_visible` on any tree containing `x` (in particular any ancestor
of `x`) yields no node of `x`'s subtree — even a visible descendant; and
`iter_visible` yields its nodes in the same pre-order as `iter_tree` (it
is a sublist of it).  Node identity is by uuid, which is unique per node. -/
theorem visibility_pruning (t x : VTree) (hx : x ∈ iter_tree t)
    (hv : x.visible = false) (hnd : (uuids t).Nodup) :
    (∀ y ∈ iter_visible t, y.uuid ∉ uuids x) ∧
    iter_visible x = [] ∧
    List.Sublist (iter_visible t) (iter_tree t) := by
  refine ⟨prune_tree t x hx hv hnd, ?_, iter_visible_sublist t⟩
  cases x with
  | node u v cs =>
    have hvf : v = false := by simpa [VTree.visible] using hv
    subst hvf
    simp [iter_visible]

/-- Witness for C8: in the concrete tree `tWitness`, the invisible node
`xWitness` and its visible child are pruned from `iter_visible`. -/
theorem visibility_pruning_witness :
    (xWitness ∈ iter_tree tWitness ∧ xWitness.visible = false ∧ (uuids tWitness).Nodup) ∧
    ((∀ y ∈ iter_visible tWitness, y.uuid ∉ uuids xWitness) ∧
     iter_visible xWitness = [] ∧
     List.Sublist (iter_visible tWitness) (iter_tree tWitness)) :=
  ⟨⟨List.Mem.tail _ (List.Mem.head _), rfl, by decide⟩,
   visibility_pruning tWitness xWitness (List.Mem.tail _ (List.Mem.head _)) rfl (by decide)⟩

end ChemVista

